import Mathlib

/-!
Verification development for the volumetric-reconstruction repository
(static SRR driver `examples/reconstructStaticVolume.py` and the
hierarchical slice alignment module `src/HierarchicalSliceAlignment.py`).

The Python sources are shallowly embedded: pure computations become Lean
functions over `ℚ`/`ℕ`/`ℤ`, the in-place mutation of slice transforms
becomes explicit state passing over a `StackM` value, and the object
references of the Python runtime are modelled by a small store when a
claim is about aliasing.  External library calls (SimpleITK registration,
the scattered-data-approximation reconstruction) are black-box oracles,
passed as function parameters.
-/

/-- Embedding of `np.arange(start, stop, step)` on natural numbers:
the list `start, start+step, ...` of all such values below `stop`
(used at `HierarchicalSliceAlignment.py:115`). -/
def arange (start stop step : ℕ) : List ℕ :=
  List.range' start ((stop - start + step - 1) / step) step

/-- Embedding of the stack loop header of `run_hierarchical_alignment`
(`HierarchicalSliceAlignment.py:67`): the executed code is
`for i in range(0, 1)`, independent of the number of stacks.  The
intended loop `for i in range(0, self._N_stacks)` is commented out at
line 68. -/
def processedStackIndices (Nstacks : ℕ) : List ℕ :=
  List.range 1

/-- Embedding of the group loop header of `_hierarchically_align_stack`
(`HierarchicalSliceAlignment.py:113`): the executed code is
`for i in range(0, 1)`, independent of `step`.  The intended loop
`for i in range(0, step)` is commented out at line 114. -/
def processedGroupOffsets (step : ℕ) : List ℕ :=
  List.range 1

/-- Embedding of `stacks_ind = list(set(stacks_ind_all) - set([i]))`
(`HierarchicalSliceAlignment.py:71`): the indices of all stacks except
stack `i`. -/
def stacksInd (Nstacks i : ℕ) : List ℕ :=
  (List.range Nstacks).filter (fun j => j ≠ i)

/-- Raw command line of `reconstructStaticVolume.py`: for each option the
value supplied on the command line, or `none` when the option is omitted.
Values appear already converted to their argparse `type` (`str`, `int`,
`float`, `bool`); a token that fails that conversion never produces a
value, so value-level claims are decided on this representation. -/
structure RawCLI where
  dir_input : Option String
  dir_output : Option String
  target_stack_index : Option ℤ
  regularization : Option String
  alpha : Option ℚ
  iter_max : Option ℤ
  verbose : Option Bool
  provide_comparison : Option Bool

/-- The parsed arguments returned by `get_parsed_input_line`
(`reconstructStaticVolume.py:62-101`). -/
structure ParsedArgs where
  dir_input : String
  dir_output : String
  target_stack_index : ℤ
  regularization : String
  alpha : ℚ
  iter_max : ℤ
  verbose : Bool
  provide_comparison : Bool
deriving DecidableEq

/-- Embedding of `get_parsed_input_line` as called by `__main__`
(`reconstructStaticVolume.py:113-123`): `--dir_input` is `required=True`
(parsing fails without it); every other option falls back to the default
of the `__main__` call (`dir_output="./"`, `target_stack_index=0`,
`regularization="TK1"`, `alpha=0.02`, `iter_max=10`, `verbose=1`,
`provide_comparison=0`).  No value of any option is validated beyond its
argparse type. -/
def getParsedInputLine (raw : RawCLI) : Option ParsedArgs :=
  match raw.dir_input with
  | none => none
  | some d =>
    some { dir_input := d
           dir_output := raw.dir_output.getD "./"
           target_stack_index := raw.target_stack_index.getD 0
           regularization := raw.regularization.getD "TK1"
           alpha := raw.alpha.getD (1 / 50)
           iter_max := raw.iter_max.getD 10
           verbose := raw.verbose.getD true
           provide_comparison := raw.provide_comparison.getD false }

/-- The argument tuple with which `__main__` instantiates
`tk.TikhonovSolver` (`reconstructStaticVolume.py:163-170`). -/
structure SolverInvocation where
  reg_type : String
  minimizer : String
  iter_max : ℤ
  alpha : ℚ
deriving DecidableEq

/-- Embedding of the `TikhonovSolver` instantiation in `__main__`
(`reconstructStaticVolume.py:163-170`): `reg_type`, `iter_max` and
`alpha` are taken verbatim from the parsed arguments and the minimizer
is the literal `"lsmr"`. -/
def solverInvocation (args : ParsedArgs) : SolverInvocation :=
  { reg_type := args.regularization
    minimizer := "lsmr"
    iter_max := args.iter_max
    alpha := args.alpha }

/-- The successive phases of `__main__` of `reconstructStaticVolume.py`. -/
inductive PipelinePhase where
  | parseInput
  | dataPreprocessing
  | hrVolumeInitPhase
  | solverConstruction
  | solverRun
  | writeOutput
deriving DecidableEq

/-- Embedding of the statement order of `__main__`
(`reconstructStaticVolume.py:107-184`): argument parsing (line 113),
data preprocessing (lines 133-146), HR volume initialisation (line 158),
solver construction (line 163), solver run (line 171), output
(line 184). -/
def mainPhases : List PipelinePhase :=
  [PipelinePhase.parseInput, PipelinePhase.dataPreprocessing,
   PipelinePhase.hrVolumeInitPhase, PipelinePhase.solverConstruction,
   PipelinePhase.solverRun, PipelinePhase.writeOutput]

/-- An affine transform on 3-space: linear part `A` and translation `t`
(centers of the SimpleITK transforms are taken as the origin).  Entries
are rationals. -/
structure AffineT where
  A : Matrix (Fin 3) (Fin 3) ℚ
  t : Fin 3 → ℚ

/-- Modelled from the spec: `sitkh.get_composited_sitk_affine_transform`
(module `SimpleITKHelper`, not under `src/`) composes two transforms in
the volume coordinate frame, outer after inner:
`(comp o i) x = o (i x)`. -/
def compT (outer inner : AffineT) : AffineT :=
  { A := outer.A * inner.A
    t := outer.A.mulVec inner.t + outer.t }

/-- A pure translation, as built by `sitk.AffineTransform(3)` followed by
`SetTranslation` (`HierarchicalSliceAlignment.py:196-200`). -/
def translationT (v : Fin 3 → ℚ) : AffineT :=
  { A := 1, t := v }

/-- The identity affine transform. -/
def idAffineT : AffineT :=
  { A := 1, t := 0 }

/-- A transform is rigid when its linear part is orthonormal. -/
def isRigid (T : AffineT) : Prop :=
  T.A.transpose * T.A = 1

/-- Embedding of the per-slice transform update
(`HierarchicalSliceAlignment.py:191-205`): with
`translation = slice_origin - origin_ref`, the code builds
`shift0 = T(-translation)`, `shift1 = transform ∘ T(translation)`
(line 201) and then returns
`shift1 ∘ (transform ∘ (shift0 ∘ old))` (lines 203-205). -/
def updateSliceTransformOfSlice (transform : AffineT)
    (originRef originSlice : Fin 3 → ℚ) (old : AffineT) : AffineT :=
  let translation : Fin 3 → ℚ := fun k => originSlice k - originRef k
  let shift0 := translationT (fun k => -(translation k))
  let shift1 := translationT translation
  let shift1c := compT transform shift1
  compT shift1c (compT transform (compT shift0 old))

/-- The update the specification describes: the registration transform
applied exactly once, conjugated by the recentering translation, composed
with the slice's existing transform in the volume frame. -/
def specUpdateSliceTransform (transform : AffineT)
    (originRef originSlice : Fin 3 → ℚ) (old : AffineT) : AffineT :=
  let translation : Fin 3 → ℚ := fun k => originSlice k - originRef k
  compT (translationT translation)
    (compT transform (compT (translationT (fun k => -(translation k))) old))

/-- A slice of a stack: pixel intensity grid, physical placement inside
the parent stack, and the mutable affine transform of accumulated
registration corrections (`base/Slice` is not under `src/`; per the
specification's data model a slice carries exactly these attributes, and
`update_affine_transform` replaces the transform). -/
structure SliceM where
  pixelData : List ℚ
  origin : Fin 3 → ℚ
  direction : Matrix (Fin 3) (Fin 3) ℚ
  transform : AffineT

/-- The default slice (used only for out-of-range `getD` reads, which the
Python code never performs). -/
def dfltSlice : SliceM :=
  { pixelData := [], origin := 0, direction := 1, transform := idAffineT }

instance : Inhabited SliceM := ⟨dfltSlice⟩

/-- A stack: the ordered slice sequence plus the 3D intensity and mask
volumes it was sliced from, with the stack's physical placement
(`base/Stack` is not under `src/`; per the specification a stack owns an
ordered sequence of slices plus one 3D intensity volume and one 3D mask
volume).  `sitkData`/`sitkMaskData` list the 2D pixel arrays along the
slice axis, so `sitkData[i]` is the image data of slice `i`. -/
structure StackM where
  slices : List SliceM
  sitkData : List (List ℚ)
  sitkMaskData : List (List ℚ)
  origin : Fin 3 → ℚ
  direction : Matrix (Fin 3) (Fin 3) ℚ
  spacing : Fin 3 → ℚ

/-- The default stack (used only for out-of-range `getD` reads). -/
def dfltStack : StackM :=
  { slices := [], sitkData := [], sitkMaskData := []
    origin := 0, direction := 1, spacing := fun _ => 1 }

instance : Inhabited StackM := ⟨dfltStack⟩

/-- Embedding of the z-axis slicing `img[:, :, start:stop:step]` of a
SimpleITK image whose per-z 2D arrays are listed in `data`: the arrays at
indices `start, start+step, ...` below `min stop data.length`. -/
def sliceZ (data : List (List ℚ)) (start stop step : ℕ) : List (List ℚ) :=
  (arange start (min stop data.length) step).filterMap (fun j => data.get? j)

/-- Embedding of the sub-stack construction of
`_get_rigid_registration_transform_of_aligned_group`
(`HierarchicalSliceAlignment.py:132-157`): reads `i_min = ind[0]`,
`i_max = ind[-1] + 1`, `step = ind[1] - ind[0]`, slices the stack image
and mask along z, and re-anchors origin and direction to those of slice
`i_min`.  The slice children that `Stack.from_sitk_image` would rebuild
are not represented (`base/Stack` is not under `src/`); the sub-stack
carries the selected image data and its placement. -/
def getGroupSubStack (stack : StackM) (ind : List ℕ) : StackM :=
  let iMin := ind.getD 0 0
  let iMax := ind.getD (ind.length - 1) 0 + 1
  let step := ind.getD 1 0 - iMin
  let baseSlice := stack.slices.getD iMin dfltSlice
  { slices := []
    sitkData := sliceZ stack.sitkData iMin iMax step
    sitkMaskData := sliceZ stack.sitkMaskData iMin iMax step
    origin := baseSlice.origin
    direction := baseSlice.direction
    spacing := stack.spacing }

/-- Embedding of `_update_slice_transformations_of_group`
(`HierarchicalSliceAlignment.py:174-219`): reads
`origin_ref = slices[ind[0]].sitk.GetOrigin()` once, then for each
`i` in `ind` replaces slice `i`'s affine transform by
`updateSliceTransformOfSlice`; the debug resampling into `test`
(lines 177-181, 211-219) only reads slice data and displays it, so it
has no counterpart here.  `updStep` is the loop body for one index `i`
of `ind`: it replaces slice `i`'s transform, leaving every other slice
field and every other slice untouched. -/
def updStep (transform : AffineT) (originRef : Fin 3 → ℚ)
    (sls : List SliceM) (i : ℕ) : List SliceM :=
  let sl := sls.getD i dfltSlice
  sls.set i { sl with
    transform :=
      updateSliceTransformOfSlice transform originRef sl.origin
        sl.transform }

/-- The full group update: `origin_ref` is read once from slice `ind[0]`,
then `updStep` runs for each `i` in `ind` in order. -/
def updateGroupTransforms (stack : StackM) (ind : List ℕ)
    (transform : AffineT) : StackM :=
  let originRef := (stack.slices.getD (ind.getD 0 0) dfltSlice).origin
  { stack with
    slices := ind.foldl (updStep transform originRef) stack.slices }

/-- Embedding of `_hierarchically_align_stack`
(`HierarchicalSliceAlignment.py:106-120`): with `i_max` the number of
slices, for each executed group offset `i` it forms
`ind = np.arange(i, i_max, step)`, obtains the rigid registration
transform of the group sub-stack against the volume estimate from the
external registration oracle (`_get_rigid_registration_transform_3D_sitk`
wraps `sitk.ImageRegistrationMethod`, a black box), and updates the
group's slice transforms. -/
def hierarchicallyAlignStack (oracle : StackM → StackM → AffineT)
    (stack volumeEstimate : StackM) (step : ℕ) : StackM :=
  let iMax := stack.slices.length
  (processedGroupOffsets step).foldl (fun st i =>
    let ind := arange i iMax step
    let transform := oracle (getGroupSubStack st ind) volumeEstimate
    updateGroupTransforms st ind transform) stack

/-- Modelled from the spec: `DataPreprocessing`
(`preprocessing/DataPreprocessing`, not under `src/`).  Per the
specification the preprocessing crops each stack to its region of
interest (the crop is abstracted as a stack-to-stack function) and the
designated target stack is the one that defines the HR physical space
("consumes one designated target stack used solely to fix HR grid
resolution and orientation"); since `__main__` reads the target as
`stacks[0]` of the preprocessed list, the target stack is placed first
in the returned list. -/
def preprocessStacks (crop : StackM → StackM) (input : List StackM)
    (targetIdx : ℕ) : List StackM :=
  (input.getD targetIdx dfltStack :: input.eraseIdx targetIdx).map crop

/-- Modelled from the spec: `Stack.get_isotropically_resampled_stack`
(`base/Stack`, not under `src/`): the returned stack lives on an
isotropic grid whose resolution equals the stack's in-plane spacing
(spacing component `0`; in-plane spacing is isotropic for these
acquisitions).  The intensity resampling onto that grid does not affect
the grid geometry and is not represented. -/
def getIsotropicallyResampledStack (s : StackM) : StackM :=
  { s with spacing := fun _ => s.spacing 0 }

/-- Embedding of the HR volume initialisation of `__main__`
(`reconstructStaticVolume.py:158`):
`HR_volume_init = stacks[0].get_isotropically_resampled_stack()` on the
preprocessed stacks. -/
def hrVolumeInit (crop : StackM → StackM) (input : List StackM)
    (targetIdx : ℕ) : StackM :=
  getIsotropicallyResampledStack
    ((preprocessStacks crop input targetIdx).getD 0 dfltStack)

/-- A store of `Stack` objects: Python references are natural numbers,
`mem` gives the current value of every reference and `next` is the next
fresh reference. -/
structure Store where
  mem : ℕ → StackM
  next : ℕ

/-- Allocate a fresh reference holding `v`. -/
def allocStack (σ : Store) (v : StackM) : ℕ × Store :=
  (σ.next, { mem := fun r => if r = σ.next then v else σ.mem r
             next := σ.next + 1 })

/-- Overwrite the value behind reference `r`. -/
def writeRef (σ : Store) (r : ℕ) (v : StackM) : Store :=
  { σ with mem := fun x => if x = r then v else σ.mem x }

/-- Modelled from the spec: `Stack.from_stack` (`base/Stack`, not under
`src/`) creates an independent copy of the referenced stack — "derived
stacks are independent copies — no shared mutable state with their
source" — so it allocates a fresh reference holding the current value. -/
def fromStack (σ : Store) (r : ℕ) : ℕ × Store :=
  allocStack σ (σ.mem r)

/-- Modelled from the spec: `_get_volume_estimate_SDA`
(`HierarchicalSliceAlignment.py:247-259`) hands the stack values and the
HR volume reference to `ScatteredDataApproximation` (module not under
`src/`), whose `run_reconstruction` computes the estimate into the HR
volume it was given — modelled conservatively as overwriting the HR
reference with the abstract reconstruction `sdaFun` of the inputs — and
returns `st.Stack.from_stack(self._SDA.get_HR_volume())`, an independent
copy. -/
def getVolumeEstimateSDA (sdaFun : List StackM → StackM → StackM)
    (σ : Store) (stackVals : List StackM) (hrRef : ℕ) : ℕ × Store :=
  let σ1 := writeRef σ hrRef (sdaFun stackVals (σ.mem hrRef))
  fromStack σ1 hrRef

/-- The stack values handed to the volume-estimate computation for
processed stack `i` (`HierarchicalSliceAlignment.py:70-75`): the stacks
at all indices other than `i`. -/
def volumeEstimateInputs (σ : Store) (stackRefs : List ℕ) (i : ℕ) :
    List StackM :=
  (stacksInd stackRefs.length i).map (fun j => σ.mem (stackRefs.getD j 0))

/-- Embedding of `run_hierarchical_alignment`
(`HierarchicalSliceAlignment.py:51-99`): copy the constructor's HR
volume (`Stack.from_stack`, line 55); for each executed stack index,
compute the volume estimate from all other stacks and align the stack's
slices against it in place; finally return an independent copy of the
last SDA's HR volume (line 97; the `return` precedes the dead code at
line 99). -/
def runHierarchicalAlignment (oracle : StackM → StackM → AffineT)
    (sdaFun : List StackM → StackM → StackM) (σ0 : Store)
    (stackRefs : List ℕ) (hrRef : ℕ) : Store × ℕ :=
  let p := fromStack σ0 hrRef
  let hrCopy := p.1
  let σfinal := (processedStackIndices stackRefs.length).foldl (fun σ i =>
    let q := getVolumeEstimateSDA sdaFun σ (volumeEstimateInputs σ stackRefs i) hrCopy
    let stRef := stackRefs.getD i 0
    writeRef q.2 stRef
      (hierarchicallyAlignStack oracle (q.2.mem stRef) (q.2.mem q.1) 3)) p.2
  let rp := fromStack σfinal hrCopy
  (rp.2, rp.1)

/-- Composition of transforms with orthonormal linear part is again a
transform with orthonormal linear part. -/
theorem isRigid_compT {o i : AffineT} (ho : isRigid o) (hi : isRigid i) :
    isRigid (compT o i) := by
  simp only [isRigid, compT, Matrix.transpose_mul] at *
  rw [mul_assoc, ← mul_assoc o.A.transpose, ho, one_mul, hi]

/-- Pure translations are rigid. -/
theorem isRigid_translationT (v : Fin 3 → ℚ) : isRigid (translationT v) := by
  simp [isRigid, translationT]

/-- The identity transform is rigid. -/
theorem isRigid_idAffineT : isRigid idAffineT := by
  simp [isRigid, idAffineT]

/-- The slice update composes the old transform only with the
registration transform and pure translations, so it preserves
rigidity. -/
theorem isRigid_updateSliceTransformOfSlice {tr old : AffineT}
    (htr : isRigid tr) (hold : isRigid old) (oR oS : Fin 3 → ℚ) :
    isRigid (updateSliceTransformOfSlice tr oR oS old) := by
  unfold updateSliceTransformOfSlice
  exact isRigid_compT (isRigid_compT htr (isRigid_translationT _))
    (isRigid_compT htr (isRigid_compT (isRigid_translationT _) hold))

/-- The non-transform fields of a slice: pixel data, origin,
direction. -/
def sliceShape (sl : SliceM) :
    List ℚ × (Fin 3 → ℚ) × Matrix (Fin 3) (Fin 3) ℚ :=
  (sl.pixelData, sl.origin, sl.direction)

/-- One update step changes no slice's non-transform fields. -/
theorem updStep_getD_sliceShape (tr : AffineT) (oR : Fin 3 → ℚ)
    (sls : List SliceM) (i j : ℕ) :
    sliceShape ((updStep tr oR sls i).getD j dfltSlice)
      = sliceShape (sls.getD j dfltSlice) := by
  simp only [updStep, List.getD_eq_getElem?_getD, List.getElem?_set]
  by_cases h : i = j
  · subst h
    by_cases h2 : i < sls.length
    · simp [h2, List.getElem?_eq_getElem h2, sliceShape]
    · simp [h2, List.getElem?_eq_none (Nat.le_of_not_lt h2)]
  · simp [h]

/-- One update step preserves the number of slices. -/
theorem updStep_length (tr : AffineT) (oR : Fin 3 → ℚ)
    (sls : List SliceM) (i : ℕ) :
    (updStep tr oR sls i).length = sls.length := by
  unfold updStep
  exact List.length_set ..

/-- The whole group loop changes no slice's non-transform fields. -/
theorem foldl_updStep_sliceShape (tr : AffineT) (oR : Fin 3 → ℚ) :
    ∀ (ind : List ℕ) (sls : List SliceM) (j : ℕ),
      sliceShape ((ind.foldl (updStep tr oR) sls).getD j dfltSlice)
        = sliceShape (sls.getD j dfltSlice) := by
  intro ind
  induction ind with
  | nil => intro sls j; rfl
  | cons i ind ih =>
    intro sls j
    rw [List.foldl_cons, ih, updStep_getD_sliceShape]

/-- The whole group loop preserves the number of slices. -/
theorem foldl_updStep_length (tr : AffineT) (oR : Fin 3 → ℚ) :
    ∀ (ind : List ℕ) (sls : List SliceM),
      (ind.foldl (updStep tr oR) sls).length = sls.length := by
  intro ind
  induction ind with
  | nil => intro sls; rfl
  | cons i ind ih =>
    intro sls
    rw [List.foldl_cons, ih, updStep_length]

/-- One update step preserves rigidity of every slice transform. -/
theorem updStep_getD_isRigid {tr : AffineT} (htr : isRigid tr)
    (oR : Fin 3 → ℚ) (sls : List SliceM) (i : ℕ)
    (h : ∀ j, isRigid ((sls.getD j dfltSlice).transform)) :
    ∀ j, isRigid (((updStep tr oR sls i).getD j dfltSlice).transform) := by
  intro j
  simp only [updStep, List.getD_eq_getElem?_getD, List.getElem?_set]
  by_cases hij : i = j
  · subst hij
    by_cases h2 : i < sls.length
    · simp only [if_pos rfl, if_pos h2, Option.getD_some]
      refine isRigid_updateSliceTransformOfSlice htr ?_ _ _
      simpa [List.getD_eq_getElem?_getD] using h i
    · simp only [if_pos rfl, if_neg h2, Option.getD_none]
      exact isRigid_idAffineT
  · simp only [if_neg hij]
    simpa [List.getD_eq_getElem?_getD] using h j

/-- The whole group loop preserves rigidity of every slice transform. -/
theorem foldl_updStep_isRigid {tr : AffineT} (htr : isRigid tr)
    (oR : Fin 3 → ℚ) :
    ∀ (ind : List ℕ) (sls : List SliceM),
      (∀ j, isRigid ((sls.getD j dfltSlice).transform)) →
      ∀ j, isRigid (((ind.foldl (updStep tr oR) sls).getD j
        dfltSlice).transform) := by
  intro ind
  induction ind with
  | nil => intro sls h j; exact h j
  | cons i ind ih =>
    intro sls h j
    rw [List.foldl_cons]
    exact ih _ (updStep_getD_isRigid htr oR sls i h) j

/-- A unit translation along the first axis: a concrete rigid
registration result used to exhibit the transform composition. -/
def unitShiftX : AffineT :=
  translationT (fun k => if k = 0 then 1 else 0)

/-- C1: the claim states that `run_hierarchical_alignment` aligns every
stack and that `_hierarchically_align_stack` registers and updates every
one of the `step` interleaved groups.  The executed code loops
`for i in range(0, 1)` in both places (its own doc comments and the
commented-out loop headers show the intended `range(0, N_stacks)` and
`range(0, step)`): with 2 stacks only stack 0 is processed, and with
`step = 3` on a 7-slice stack only the group `[0, 3, 6]` of offset 0 is
registered, so slice 1 belongs to no processed group. -/
theorem claim1_only_first_stack_and_group_processed :
    processedStackIndices 2 = [0] ∧ (1 : ℕ) ∉ processedStackIndices 2
      ∧ processedGroupOffsets 3 = [0] ∧ (1 : ℕ) ∉ processedGroupOffsets 3
      ∧ arange 0 7 3 = [0, 3, 6] ∧ (1 : ℕ) ∉ arange 0 7 3 := by
  decide

/-- C2: the claim states that the new slice transform is the registration
transform composed exactly once (conjugated by the recentering
translation) with the old transform, so that the first slice of the
group receives `transform ∘ old`.  The executed code pre-composes
`shift1` with the registration transform at line 201 and composes the
registration transform again at line 204: for the group's first slice
(zero recentering) and identity old transform a unit-translation
registration transform yields a translation of 2, not 1, so the code
applies the registration transform twice. -/
theorem claim2_registration_transform_applied_twice :
    (updateSliceTransformOfSlice unitShiftX 0 0 idAffineT).t 0 = 2
      ∧ (specUpdateSliceTransform unitShiftX 0 0 idAffineT).t 0 = 1
      ∧ updateSliceTransformOfSlice unitShiftX 0 0 idAffineT
          ≠ specUpdateSliceTransform unitShiftX 0 0 idAffineT := by
  have h1 : (updateSliceTransformOfSlice unitShiftX 0 0 idAffineT).t 0 = 2 := by
    simp [updateSliceTransformOfSlice, compT, translationT, idAffineT, unitShiftX]
    norm_num
  have h2 : (specUpdateSliceTransform unitShiftX 0 0 idAffineT).t 0 = 1 := by
    simp [specUpdateSliceTransform, compT, translationT, idAffineT, unitShiftX]
  refine ⟨h1, h2, fun heq => ?_⟩
  rw [heq, h2] at h1
  norm_num at h1

/-- The command line
`--dir_input=fetal_brain --regularization=XX --alpha=-1 --iter_max=0`:
an invalid regularization name, a negative alpha and a non-positive
iteration cap at once. -/
def badRawCLI : RawCLI :=
  { dir_input := some "fetal_brain", dir_output := none
    target_stack_index := none, regularization := some "XX"
    alpha := some (-1), iter_max := some 0
    verbose := none, provide_comparison := none }

/-- C3 counterexample: on a command line whose regularization name is
invalid, whose alpha is negative and whose iter_max is non-positive, the
program does not report a configuration error at setup — parsing
succeeds and returns the invalid values unchanged. -/
theorem claim3_counterexample_no_error_at_setup :
    (getParsedInputLine badRawCLI).isSome = true
      ∧ getParsedInputLine badRawCLI = some
          { dir_input := "fetal_brain", dir_output := "./"
            target_stack_index := 0, regularization := "XX"
            alpha := -1, iter_max := 0
            verbose := true, provide_comparison := false } :=
  ⟨rfl, rfl⟩

/-- The raw command line `--dir_input=d` together with optional values
for `--regularization`, `--alpha` and `--iter_max`; every other option
omitted. -/
def rawCLIWith (d : String) (r : Option String) (a : Option ℚ)
    (m : Option ℤ) : RawCLI :=
  { dir_input := some d
    dir_output := none
    target_stack_index := none
    regularization := r
    alpha := a
    iter_max := m
    verbose := none
    provide_comparison := none }

/-- C3 (amended): for every invocation whose arguments contain an invalid
regularization name, a negative alpha, or a non-positive iter_max, no
configuration error is reported at setup: parsing succeeds, the invalid
values flow unchanged into the Tikhonov solver invocation, and the
solver-construction phase runs only after the data-preprocessing
phase. -/
theorem claim3_invalid_config_reaches_solver_after_preprocessing
    (d r : String) (a : ℚ) (m : ℤ)
    (hinv : (r ≠ "TK0" ∧ r ≠ "TK1") ∨ a < 0 ∨ m ≤ 0) :
    ∃ args : ParsedArgs,
      getParsedInputLine (rawCLIWith d (some r) (some a) (some m))
          = some args
      ∧ args.regularization = r ∧ args.alpha = a ∧ args.iter_max = m
      ∧ (solverInvocation args).reg_type = r
      ∧ (solverInvocation args).alpha = a
      ∧ (solverInvocation args).iter_max = m
      ∧ mainPhases.indexOf PipelinePhase.dataPreprocessing
          < mainPhases.indexOf PipelinePhase.solverConstruction := by
  exact ⟨_, rfl, rfl, rfl, rfl, rfl, rfl, rfl, by decide⟩

/-- C3 witness: the amended theorem applied to the concrete invalid
configuration `regularization="XX"`, `alpha=-1`, `iter_max=0`. -/
theorem claim3_invalid_config_witness :
    (("XX" : String) ≠ "TK0" ∧ ("XX" : String) ≠ "TK1")
      ∧ ∃ args : ParsedArgs,
          getParsedInputLine
              (rawCLIWith "fetal_brain" (some "XX") (some (-1)) (some 0))
            = some args
          ∧ args.regularization = "XX" ∧ args.alpha = -1 ∧ args.iter_max = 0
          ∧ (solverInvocation args).reg_type = "XX"
          ∧ (solverInvocation args).alpha = -1
          ∧ (solverInvocation args).iter_max = 0
          ∧ mainPhases.indexOf PipelinePhase.dataPreprocessing
              < mainPhases.indexOf PipelinePhase.solverConstruction :=
  ⟨⟨by decide, by decide⟩,
    claim3_invalid_config_reaches_solver_after_preprocessing
      "fetal_brain" "XX" (-1) 0 (Or.inl ⟨by decide, by decide⟩)⟩

/-- C4: when the command line omits the corresponding options, the
Tikhonov solver is invoked with regularization type `"TK1"`, the sparse
iterative least-squares minimizer `"lsmr"`, maximum iteration count 10
and regularization weight `alpha = 0.02`. -/
theorem claim4_solver_defaults (d : String) :
    ∃ args : ParsedArgs,
      getParsedInputLine (rawCLIWith d none none none) = some args
      ∧ solverInvocation args =
          { reg_type := "TK1", minimizer := "lsmr"
            iter_max := 10, alpha := 1 / 50 } :=
  ⟨_, rfl, rfl⟩

/-- C10: for every stack index processed by `run_hierarchical_alignment`,
the stack list handed to the volume-estimate computation consists of the
stacks at exactly the indices that are below the number of stacks and
different from the processed index: the processed stack is excluded from
its own volume estimate. -/
theorem claim10_volume_estimate_leave_one_out (σ : Store)
    (stackRefs : List ℕ) (i : ℕ)
    (hi : i ∈ processedStackIndices stackRefs.length) :
    i ∉ stacksInd stackRefs.length i
      ∧ (∀ j, j ∈ stacksInd stackRefs.length i
          ↔ (j < stackRefs.length ∧ j ≠ i))
      ∧ volumeEstimateInputs σ stackRefs i
          = (stacksInd stackRefs.length i).map
              (fun j => σ.mem (stackRefs.getD j 0)) := by
  refine ⟨by simp [stacksInd], fun j => ?_, rfl⟩
  simp [stacksInd, List.mem_filter, List.mem_range]

/-- A concrete two-reference store for witnesses. -/
def cStore : Store :=
  { mem := fun _ => dfltStack, next := 2 }

/-- C10 witness: with two stacks, processed stack 0's volume estimate
draws on stack 1 but not on stack 0. -/
theorem claim10_leave_one_out_witness :
    (0 ∈ processedStackIndices ([5, 7] : List ℕ).length)
      ∧ (0 : ℕ) ∉ stacksInd ([5, 7] : List ℕ).length 0
      ∧ ((1 : ℕ) ∈ stacksInd ([5, 7] : List ℕ).length 0
          ↔ (1 < ([5, 7] : List ℕ).length ∧ (1 : ℕ) ≠ 0)) :=
  ⟨by decide,
    (claim10_volume_estimate_leave_one_out cStore [5, 7] 0 (by decide)).1,
    (claim10_volume_estimate_leave_one_out cStore [5, 7] 0 (by decide)).2.1 1⟩

/-- C5: the initial HR volume handed to the solver is the isotropically
resampled crop of exactly the stack selected by `target_stack_index`,
and its grid is isotropic with resolution equal to that stack's in-plane
spacing. -/
theorem claim5_target_stack_defines_hr_space (crop : StackM → StackM)
    (input : List StackM) (targetIdx : ℕ)
    (ht : targetIdx < input.length)
    (hcrop : ∀ s, (crop s).spacing = s.spacing) :
    hrVolumeInit crop input targetIdx
        = getIsotropicallyResampledStack
            (crop (input.getD targetIdx dfltStack))
      ∧ (hrVolumeInit crop input targetIdx).spacing
          = fun _ => (input.getD targetIdx dfltStack).spacing 0 := by
  refine ⟨rfl, ?_⟩
  funext k
  simp [hrVolumeInit, preprocessStacks, getIsotropicallyResampledStack, hcrop]

/-- A concrete anisotropic stack: in-plane spacing 2, slice spacing 5. -/
def cStackA : StackM :=
  { dfltStack with spacing := fun k => if k = 2 then 5 else 2 }

/-- C5 witness: with a single input stack of in-plane spacing 2 and the
identity crop, the initial HR volume's grid is isotropic with
resolution 2. -/
theorem claim5_target_stack_witness :
    (0 < ([cStackA] : List StackM).length)
      ∧ ((hrVolumeInit (fun s => s) [cStackA] 0).spacing
          = fun _ => (([cStackA] : List StackM).getD 0 dfltStack).spacing 0)
      ∧ (([cStackA] : List StackM).getD 0 dfltStack).spacing 0 = 2 :=
  ⟨Nat.zero_lt_one,
    (claim5_target_stack_defines_hr_space (fun s => s) [cStackA] 0
      Nat.zero_lt_one (fun s => rfl)).2,
    rfl⟩

/-- C6: a hierarchical alignment pass over a stack changes no slice's
pixel data, origin or direction, preserves the number and order of the
slices, and leaves the stack's 3D volume, mask and placement untouched:
only slice affine transforms can change. -/
theorem claim6_alignment_mutates_only_transforms
    (oracle : StackM → StackM → AffineT)
    (stack volumeEstimate : StackM) (step : ℕ) :
    ((hierarchicallyAlignStack oracle stack volumeEstimate step).slices.length
        = stack.slices.length)
      ∧ (∀ j, sliceShape
            ((hierarchicallyAlignStack oracle stack volumeEstimate
              step).slices.getD j dfltSlice)
          = sliceShape (stack.slices.getD j dfltSlice))
      ∧ (hierarchicallyAlignStack oracle stack volumeEstimate step).sitkData
          = stack.sitkData
      ∧ (hierarchicallyAlignStack oracle stack volumeEstimate
          step).sitkMaskData = stack.sitkMaskData
      ∧ (hierarchicallyAlignStack oracle stack volumeEstimate step).origin
          = stack.origin
      ∧ (hierarchicallyAlignStack oracle stack volumeEstimate step).direction
          = stack.direction
      ∧ (hierarchicallyAlignStack oracle stack volumeEstimate step).spacing
          = stack.spacing := by
  refine ⟨?_, ?_, rfl, rfl, rfl, rfl, rfl⟩
  · exact foldl_updStep_length _ _ _ _
  · intro j
    exact foldl_updStep_sliceShape _ _ _ _ j

/-- C8: if the external registration oracle only ever returns rigid
transforms (the code wraps its result in `sitk.Euler3DTransform`) and
every slice transform of the stack is rigid before the pass, then every
slice transform is still rigid after the pass. -/
theorem claim8_rigidity_preserved (oracle : StackM → StackM → AffineT)
    (stack volumeEstimate : StackM) (step : ℕ)
    (horacle : ∀ g v, isRigid (oracle g v))
    (hstack : ∀ j, isRigid ((stack.slices.getD j dfltSlice).transform)) :
    ∀ j, isRigid
      (((hierarchicallyAlignStack oracle stack volumeEstimate
        step).slices.getD j dfltSlice).transform) := by
  intro j
  exact foldl_updStep_isRigid (horacle _ _) _ _ _ hstack j

/-- A concrete one-slice stack whose slice carries the identity (hence
rigid) transform. -/
def cStackB : StackM :=
  { dfltStack with
    slices := [{ pixelData := [3], origin := fun _ => 1
                 direction := 1, transform := idAffineT }]
    sitkData := [[3]], sitkMaskData := [[1]] }

/-- C8 witness: a pass with the identity-returning oracle over the
one-slice stack leaves a rigid slice transform. -/
theorem claim8_rigidity_witness :
    isRigid (((hierarchicallyAlignStack (fun _ _ => idAffineT) cStackB
      dfltStack 3).slices.getD 0 dfltSlice).transform) :=
  claim8_rigidity_preserved (fun _ _ => idAffineT) cStackB dfltStack 3
    (fun _ _ => isRigid_idAffineT)
    (fun j => by cases j <;> exact isRigid_idAffineT) 0

/-- On index lists that stay within bounds, looking slices up through
`get?` and through `getD` agree. -/
theorem filterMap_getq_eq_map_getD {α : Type} (data : List α) (d : α) :
    ∀ (l : List ℕ), (∀ j ∈ l, j < data.length) →
      l.filterMap (fun j => data.get? j)
        = l.map (fun j => data.getD j d) := by
  intro l
  induction l with
  | nil => intro _; rfl
  | cons x xs ih =>
    intro h
    have hx : x < data.length := h x (List.mem_cons_self ..)
    have hget : data.get? x = some (data.getD x d) := by
      rw [List.get?_eq_getElem?, List.getElem?_eq_getElem hx,
        List.getD_eq_getElem _ _ hx]
    rw [List.filterMap_cons, List.map_cons, hget]
    exact congrArg _ (ih (fun j hj => h j (List.mem_cons_of_mem _ hj)))

/-- Recomputing `np.arange` from the first element, the last element
plus one, and the common difference of an arithmetic index list recovers
that list. -/
theorem arange_recover (a m s : ℕ) (hs : 0 < s) :
    arange a (a + s * (m + 1) + 1) s = List.range' a (m + 2) s := by
  unfold arange
  congr 1
  have h1 : a + s * (m + 1) + 1 - a + s - 1 = s * (m + 1) + s := by omega
  rw [h1]
  have h2 : s * (m + 1) + s = s * (m + 2) := by ring
  rw [h2, Nat.mul_div_cancel_left _ hs]

/-- First element of an arithmetic index list. -/
theorem range'_getD_zero (a m s : ℕ) :
    (List.range' a (m + 2) s).getD 0 0 = a := by
  have hlen : 0 < (List.range' a (m + 2) s).length := by
    rw [List.length_range']; omega
  rw [List.getD_eq_getElem _ _ hlen, List.getElem_range']
  simp

/-- Second element of an arithmetic index list. -/
theorem range'_getD_one (a m s : ℕ) :
    (List.range' a (m + 2) s).getD 1 0 = a + s := by
  have hlen : 1 < (List.range' a (m + 2) s).length := by
    rw [List.length_range']; omega
  rw [List.getD_eq_getElem _ _ hlen, List.getElem_range']
  simp

/-- Last element of an arithmetic index list. -/
theorem range'_getD_last (a m s : ℕ) :
    (List.range' a (m + 2) s).getD ((List.range' a (m + 2) s).length - 1) 0
      = a + s * (m + 1) := by
  have hlen : (List.range' a (m + 2) s).length - 1
      < (List.range' a (m + 2) s).length := by
    rw [List.length_range']; omega
  rw [List.getD_eq_getElem _ _ hlen, List.getElem_range']
  rw [List.length_range']
  rfl

/-- Every element of an arithmetic index list is bounded by a bound on
its last element. -/
theorem range'_bounded (a m s L : ℕ) (hL : a + s * (m + 1) < L) :
    ∀ j ∈ List.range' a (m + 2) s, j < L := by
  intro j hj
  rw [List.mem_range'] at hj
  obtain ⟨i, hi, rfl⟩ := hj
  have : s * i ≤ s * (m + 1) := Nat.mul_le_mul_left s (by omega)
  omega

/-- C7: for an interleaved group whose index list `ind` is an arithmetic
progression of at least two in-range indices, the sub-stack built for
registration carries exactly the image and mask arrays of the stack at
the indices of `ind`, and its origin and direction are re-anchored to
those of the group's first slice. -/
theorem claim7_group_substack_exact_slices (stack : StackM)
    (a n s : ℕ) (ind : List ℕ)
    (hind : ind = List.range' a n s) (hn : 2 ≤ n) (hs : 0 < s)
    (hdata : a + s * (n - 1) < stack.sitkData.length)
    (hmask : a + s * (n - 1) < stack.sitkMaskData.length) :
    (getGroupSubStack stack ind).sitkData
        = ind.map (fun j => stack.sitkData.getD j [])
      ∧ (getGroupSubStack stack ind).sitkMaskData
        = ind.map (fun j => stack.sitkMaskData.getD j [])
      ∧ (getGroupSubStack stack ind).origin
        = (stack.slices.getD a dfltSlice).origin
      ∧ (getGroupSubStack stack ind).direction
        = (stack.slices.getD a dfltSlice).direction := by
  obtain ⟨m, rfl⟩ : ∃ m, n = m + 2 := ⟨n - 2, by omega⟩
  subst hind
  have hsub : m + 2 - 1 = m + 1 := rfl
  rw [hsub] at hdata hmask
  have hdataZ :
      sliceZ stack.sitkData a (a + s * (m + 1) + 1) s
        = (List.range' a (m + 2) s).map
            (fun j => stack.sitkData.getD j []) := by
    unfold sliceZ
    rw [Nat.min_eq_left (by omega), arange_recover a m s hs]
    exact filterMap_getq_eq_map_getD _ _ _
      (range'_bounded a m s _ hdata)
  have hmaskZ :
      sliceZ stack.sitkMaskData a (a + s * (m + 1) + 1) s
        = (List.range' a (m + 2) s).map
            (fun j => stack.sitkMaskData.getD j []) := by
    unfold sliceZ
    rw [Nat.min_eq_left (by omega), arange_recover a m s hs]
    exact filterMap_getq_eq_map_getD _ _ _
      (range'_bounded a m s _ hmask)
  refine ⟨?_, ?_, ?_, ?_⟩ <;>
    simp only [getGroupSubStack, range'_getD_zero, range'_getD_one,
      range'_getD_last, Nat.add_sub_cancel_left, hdataZ, hmaskZ]

/-- A concrete four-slice stack used to witness the sub-stack
construction. -/
def cStackC : StackM :=
  { slices := [0, 1, 2, 3].map (fun v : ℚ =>
      { pixelData := [v], origin := fun _ => v
        direction := 1, transform := idAffineT })
    sitkData := [[10], [11], [12], [13]]
    sitkMaskData := [[1], [1], [0], [0]]
    origin := 0, direction := 1, spacing := fun _ => 1 }

/-- C7 witness: for the group `[0, 3]` of a four-slice stack the
sub-stack holds exactly the arrays of slices 0 and 3. -/
theorem claim7_group_substack_witness :
    (2 ≤ 2 ∧ 0 < 3 ∧ 0 + 3 * (2 - 1) < cStackC.sitkData.length)
      ∧ (getGroupSubStack cStackC [0, 3]).sitkData
          = [0, 3].map (fun j => cStackC.sitkData.getD j [])
      ∧ [0, 3].map (fun j => cStackC.sitkData.getD j []) = [[10], [13]] :=
  ⟨⟨by decide, by decide, by decide⟩,
    (claim7_group_substack_exact_slices cStackC 0 2 3 [0, 3] (by decide)
      (by decide) (by decide) (by decide) (by decide)).1,
    by decide⟩

/-- C9: `run_hierarchical_alignment` never mutates the HR volume handed
to the constructor — the copy made by `Stack.from_stack` (and the
further copies made for the volume estimates) absorb every write, even
though the scattered-data approximation writes into the HR reference it
is given — and the returned volume estimate is a fresh reference,
distinct from every input stack reference and from the constructor's HR
reference. -/
theorem claim9_hr_volume_not_mutated (oracle : StackM → StackM → AffineT)
    (sdaFun : List StackM → StackM → StackM) (σ0 : Store)
    (stackRefs : List ℕ) (hrRef : ℕ)
    (h1 : hrRef < σ0.next) (h2 : ∀ r ∈ stackRefs, r < σ0.next)
    (h3 : hrRef ∉ stackRefs) (h4 : stackRefs ≠ []) :
    (runHierarchicalAlignment oracle sdaFun σ0 stackRefs hrRef).1.mem hrRef
        = σ0.mem hrRef
      ∧ (runHierarchicalAlignment oracle sdaFun σ0 stackRefs hrRef).2
          ∉ stackRefs
      ∧ (runHierarchicalAlignment oracle sdaFun σ0 stackRefs hrRef).2
          ≠ hrRef := by
  obtain ⟨r0, rs, rfl⟩ := List.exists_cons_of_ne_nil h4
  have hr0mem : r0 ∈ r0 :: rs := List.mem_cons_self ..
  have hr0 : r0 < σ0.next := h2 r0 hr0mem
  have hne1 : hrRef ≠ σ0.next := by omega
  have hne2 : hrRef ≠ σ0.next + 1 := by omega
  have hne3 : hrRef ≠ σ0.next + 1 + 1 := by omega
  have hner0 : hrRef ≠ r0 := fun h => h3 (h ▸ hr0mem)
  simp only [runHierarchicalAlignment, getVolumeEstimateSDA, fromStack,
    allocStack, writeRef, processedStackIndices, List.range_succ,
    List.range_zero, List.nil_append, List.foldl_cons, List.foldl_nil,
    List.getD_cons_zero]
  refine ⟨?_, ?_, ?_⟩
  · simp [hne1, hne2, hne3, hner0]
  · intro hmem
    have := h2 _ hmem
    omega
  · omega

/-- C9 witness: a two-reference store whose reference 1 holds the HR
volume and whose reference 0 holds the only stack; the run leaves
reference 1 untouched and returns a fresh reference. -/
theorem claim9_hr_volume_witness :
    (1 < cStore.next)
      ∧ (runHierarchicalAlignment (fun _ _ => idAffineT) (fun _ v => v)
          cStore [0] 1).1.mem 1 = cStore.mem 1
      ∧ (runHierarchicalAlignment (fun _ _ => idAffineT) (fun _ v => v)
          cStore [0] 1).2 ≠ 1 :=
  ⟨by decide,
    (claim9_hr_volume_not_mutated (fun _ _ => idAffineT) (fun _ v => v)
      cStore [0] 1 (by decide) (by decide) (by decide) (by decide)).1,
    (claim9_hr_volume_not_mutated (fun _ _ => idAffineT) (fun _ v => v)
      cStore [0] 1 (by decide) (by decide) (by decide) (by decide)).2.2⟩
